import Mathlib

/-!
Elements: container views, the composite-ancestor finder and the key-intercept decorator

A shallow embedding of

* `container`, `composite<Container, Base>` and `range_composite<Base>`
  (`lib/include/elements/element/composite.hpp`, lines 23-32 and 92-136),
* `find_composite` (`composite.hpp`, lines 143-177),
* `key_intercept_element` (`lib/include/elements/element/misc.hpp`, lines 255-286),

followed by the properties proved about them.

Conventions.  `std::size_t` values are natural numbers below `2 ^ w`, where `w` is the
width of `std::size_t`; `+` and `-` on them are taken modulo `2 ^ w`.  A pointer that may
be null is an `Option`.  Objects reached through pointers (elements, contexts) are finite
trees: a context is built from its parent, a proxy owns its subject.
-/

namespace elements

/-! ## `std::size_t` arithmetic -/

/-- Sum of two `std::size_t` values of width `w`: unsigned addition wraps modulo `2 ^ w`. -/
def size_t_add (w a b : Nat) : Nat := (a + b) % 2 ^ w

/-- Difference `a - b` of two `std::size_t` values of width `w`: unsigned subtraction wraps
modulo `2 ^ w`. -/
def size_t_sub (w a b : Nat) : Nat := (a + (2 ^ w - b % 2 ^ w)) % 2 ^ w

/-! ## Containers (`composite.hpp`, lines 23-32, 92-136) -/

/-- Class `container`: the two pure virtual members `size()` and `at(ix)`.  `at_ ix` is
`none` where the call is outside the precondition of the concrete container (undefined
behaviour in the source). -/
structure container (E : Type) where
  size : Nat
  at_ : Nat → Option E

/-- Member `container::empty`: `return size() == 0;`. -/
def container.empty {E : Type} (c : container E) : Bool := c.size == 0

/-- The container part of `vector_composite` (`composite<std::vector<element_ptr>, Base>`):
`size()` is the vector's size and `at(ix)` is the unchecked `(*this)[ix]`. -/
def vector_composite {E : Type} (xs : List E) : container E :=
  { size := xs.length, at_ := fun ix => xs[ix]? }

/-- Class `range_composite<Base>`: the data members `_first`, `_last` and the reference
`_container`. -/
structure range_composite (E : Type) where
  _first : Nat
  _last : Nat
  _container : container E

/-- Constructor `range_composite(container_, first, last)`: the three member initialisers
and an empty body. -/
def range_composite.ctor {E : Type} (container_ : container E) (first last : Nat) :
    range_composite E :=
  { _first := first, _last := last, _container := container_ }

/-- Member `range_composite::size`: `return _last - _first;` in `std::size_t`. -/
def range_composite.size {E : Type} (w : Nat) (self : range_composite E) : Nat :=
  size_t_sub w self._last self._first

/-- Member `range_composite::at`: `return _container.at(_first + ix);` with the sum taken in
`std::size_t`. -/
def range_composite.at_ {E : Type} (w : Nat) (self : range_composite E) (ix : Nat) :
    Option E :=
  self._container.at_ (size_t_add w self._first ix)

/-- A `range_composite` seen through its `container` base: the two overriders. -/
def range_composite.to_container {E : Type} (w : Nat) (self : range_composite E) :
    container E :=
  { size := self.size w, at_ := self.at_ w }

/-- Inherited `container::empty` called on a `range_composite`. -/
def range_composite.empty {E : Type} (w : Nat) (self : range_composite E) : Bool :=
  (self.to_container w).empty

/-! ## Elements and contexts as `find_composite` sees them -/

/-- Modelled from the spec: the classes `element` and `proxy_base`
(`elements/element/element.hpp`, `elements/element/proxy.hpp`), whose declarations are not
among the sources: an element is a leaf, a decorator owning exactly one subject, or a
composite.  The type holds what the two `dynamic_cast`s of `find_composite` can tell about
an element.  `id` stands for the identity (address) of the object, `is_composite` says
whether `dynamic_cast<composite_base*>` succeeds on it, and the constructor `proxy` is an
object on which `dynamic_cast<proxy_base*>` succeeds, with the element `subject()`
returns. -/
inductive element where
  | plain (id : Nat) (is_composite : Bool) : element
  | proxy (id : Nat) (is_composite : Bool) (subject : element) : element
deriving DecidableEq

/-- Modelled from the spec: the bounds rectangle of a context (struct `rect`, not among
the sources).  No code modelled here reads it; its coordinates are kept as integers. -/
structure rect where
  left : Int
  top : Int
  right : Int
  bottom : Int
deriving DecidableEq

/-- Modelled from the spec: class `context` (`elements/support/context.hpp`), whose
declaration is not among the sources.  A traversal context holds `element` (pointer to the
owning element, possibly null), `parent` (pointer to the context of the enclosing node,
null at the root), `bounds` (the rectangle of the node) and `canvas` (a handle of the render
surface). -/
inductive context where
  | mk (element : Option element) (parent : Option context) (bounds : rect)
      (canvas : Nat) : context

/-- Member `context::element`. -/
def context.element : context → Option element
  | .mk e _ _ _ => e

/-- Member `context::parent`. -/
def context.parent : context → Option context
  | .mk _ p _ _ => p

/-- Member `context::bounds`. -/
def context.bounds : context → rect
  | .mk _ _ b _ => b

/-- Member `context::canvas`. -/
def context.canvas : context → Nat
  | .mk _ _ _ cv => cv

/-- Type `std::pair<composite_base*, context const*>`. -/
abbrev composite_pair := Option element × Option context

/-- Test `dynamic_cast<composite_base*>(e) != nullptr` on a non-null element. -/
def element.is_composite_base : element → Bool
  | .plain _ c => c
  | .proxy _ c _ => c

/-! ## `find_composite` (`composite.hpp`, lines 143-177) -/

/-- Lambda `find` of `find_composite` (lines 150-160).  It captures `result` by reference,
so the pair is threaded through: on a composite it stores `(c, &ctx)` and answers `true`,
otherwise it leaves `result` alone and answers `false`. -/
def find_composite.find (ctx : context) (e : Option element) (result : composite_pair) :
    Bool × composite_pair :=
  match e with
  | some c => if c.is_composite_base then (true, (some c, some ctx)) else (false, result)
  | none => (false, result)

/-- Inner loop `while (proxy)` of `find_composite` (lines 166-173), entered with
`proxy = dynamic_cast<proxy_base*>(e)`.  The answer is `some result` when the function
returns from inside the loop and `none` when the loop runs out of proxies. -/
def find_composite.unwrap (p : context) : element → composite_pair → Option composite_pair
  | .plain _ _, _ => none
  | .proxy _ _ subject, result =>
    match find_composite.find p (some subject) result with
    | (true, r) => some r
    | (false, r) => find_composite.unwrap p subject r

/-- Outer loop `while (p)` of `find_composite` (lines 148-175), entered with a non-null
`p`; the value is what the function returns. -/
def find_composite.walk : context → composite_pair → composite_pair
  | .mk e parent b cv, result =>
    match find_composite.find (.mk e parent b cv) e result with
    | (true, r) => r
    | (false, r) =>
      match (match e with
             | some el => find_composite.unwrap (.mk e parent b cv) el r
             | none => none) with
      | some r2 => r2
      | none =>
        match parent with
        | some q => find_composite.walk q r
        | none => r

/-- Function `find_composite(ctx)`: `result` starts as the null pair and the walk starts at
`ctx.parent`. -/
def find_composite (ctx : context) : composite_pair :=
  match ctx.parent with
  | some p => find_composite.walk p (none, none)
  | none => (none, none)

/-! ### Vocabulary of the specification of `find_composite` -/

/-- The first composite met when testing an element and then its successive decorator
subjects, in that order. -/
def first_composite : element → Option element
  | .plain id c => if c then some (.plain id c) else none
  | .proxy id c s => if c then some (.proxy id c s) else first_composite s

/-- The first composite among the successive subjects of an element, the element itself
left out. -/
def subject_composite : element → Option element
  | .plain _ _ => none
  | .proxy _ _ s => first_composite s

/-- A context whose owning element is a composite, or unwraps through decorators to a
composite. -/
def qualifies (k : context) : Bool := (k.element.bind first_composite).isSome

/-- A context followed by its parent, the parent of that one, and so on up to the root. -/
def chain : context → List context
  | .mk e parent b cv =>
    (.mk e parent b cv) :: (match parent with
                         | some q => chain q
                         | none => [])

/-- The parent chain of a context: `ctx.parent`, its parent, and so on; empty when the
context has no parent. -/
def ancestors (ctx : context) : List context :=
  match ctx.parent with
  | some p => chain p
  | none => []

/-! ### A sample context chain

From the leaf upwards: the leaf's context; a context owned by a decorator (element 2) over
the leaf (element 1); a context owned by a decorator (element 3) over a decorator
(element 4) over a composite (element 5); the context of a root composite (element 6). -/

/-- Context of the root composite. -/
def sample_root : context := .mk (some (.plain 6 true)) none ⟨0, 0, 100, 100⟩ 0

/-- Context owned by the decorator that wraps, two levels down, the composite 5. -/
def sample_outer : context :=
  .mk (some (.proxy 3 false (.proxy 4 false (.plain 5 true)))) (some sample_root)
    ⟨10, 10, 60, 60⟩ 0

/-- Context owned by the decorator over the leaf. -/
def sample_child : context :=
  .mk (some (.proxy 2 false (.plain 1 false))) (some sample_outer) ⟨10, 10, 30, 30⟩ 0

/-- Context of the leaf. -/
def sample_leaf : context :=
  .mk (some (.plain 1 false)) (some sample_child) ⟨10, 10, 30, 30⟩ 0

/-- Context chain in which no owning element is or reaches a composite; the root has no
owning element. -/
def sample_bare : context :=
  .mk (some (.plain 1 false))
    (some (.mk (some (.proxy 2 false (.plain 1 false)))
      (some (.mk (some (.plain 7 false)) (some (.mk none none ⟨0, 0, 100, 100⟩ 0))
        ⟨0, 0, 100, 100⟩ 0))
      ⟨10, 10, 30, 30⟩ 0))
    ⟨10, 10, 30, 30⟩ 0

/-! ## The key-intercept decorator (`misc.hpp`, lines 255-286) -/

/-- Modelled from the spec: the element capability surface (`elements/element/element.hpp`,
not among the sources), cut down to the members of a subject type that
`key_intercept_element<Subject>` overrides: `key(ctx, k)` and the two queries
`is_control()` and `wants_focus()`.  `W` is the state of everything the subject and the
closure held in `on_key` can reach, the subject object itself included; `key` may change
any of it. -/
structure subject_type (Key W : Type) where
  key : context → Key → W → Bool × W
  is_control : W → Bool
  wants_focus : W → Bool

/-- Exceptions thrown by the code modelled here: `std::bad_function_call`, which calling an
empty `std::function` throws. -/
inductive exception where
  | bad_function_call : exception
deriving DecidableEq

/-- Struct `key_intercept_element<Subject>`: the public member `on_key`, a
`std::function<bool(key_info)>`.  It is `none` when the function object is empty; otherwise
it is a closure, which gets the key and may read and change any part of the state `W`, the
subject included.  The subject held by the `proxy<Subject>` base lives in `W`; its
behaviour is `S`. -/
structure key_intercept_element {Key W : Type} (S : subject_type Key W) where
  on_key : Option (Key → W → Bool × W)

/-- Function `key_intercept(subject)`: the decorator as constructed, `on_key` being the
default member initialiser, a lambda that answers `false` and touches nothing. -/
def key_intercept {Key W : Type} (S : subject_type Key W) : key_intercept_element S :=
  { on_key := some (fun _ w => (false, w)) }

/-- Member `key_intercept_element::key` (lines 280-286):
`if (on_key(k)) return true; return this->subject().key(ctx, k);`, run in the state `w`.
Calling an empty `on_key` throws; otherwise `on_key(k)` runs first, and the subject's `key`,
when it is called, runs in the state `on_key(k)` left.  The value is the `bool` returned
together with the state after the call. -/
def key_intercept_element.key {Key W : Type} {S : subject_type Key W}
    (self : key_intercept_element S) (ctx : context) (k : Key) (w : W) :
    Except exception (Bool × W) :=
  match self.on_key with
  | none => .error .bad_function_call
  | some f =>
    match f k w with
    | (true, w1) => .ok (true, w1)
    | (false, w1) => .ok (S.key ctx k w1)

/-- Member `key_intercept_element::is_control` (line 265): `return true;`. -/
def key_intercept_element.is_control {Key W : Type} {S : subject_type Key W}
    (_self : key_intercept_element S) : Bool := true

/-- Member `key_intercept_element::wants_focus` (line 266): `return true;`. -/
def key_intercept_element.wants_focus {Key W : Type} {S : subject_type Key W}
    (_self : key_intercept_element S) : Bool := true

/-! ### A sample subject and sample closures -/

/-- State of a sample subject: a content `value` (say, the text of an input box) and the
record `calls` of the calls its `key` has received, in call order. -/
structure sample_subject where
  value : Nat
  calls : List (context × Nat)

/-- State reachable in the samples: the subject and a counter `seen` kept by the closure. -/
structure sample_world where
  subject : sample_subject
  seen : Nat

/-- A subject whose `key` records the call (context and key) and answers `answer`, and which
answers `false` to `is_control()` and `wants_focus()`. -/
def recorder (answer : Bool) : subject_type Nat sample_world :=
  { key := fun ctx k w =>
      (answer, { w with subject := { w.subject with calls := w.subject.calls ++ [(ctx, k)] } })
    is_control := fun _ => false
    wants_focus := fun _ => false }

/-- Starting state of the samples: content 5, no call received, counter 0. -/
def sample_start : sample_world := { subject := { value := 5, calls := [] }, seen := 0 }

/-- A key-intercept decorator over a `recorder` whose `on_key` handles the key 27, counts its
own calls in `seen` and leaves the subject alone. -/
def sample_intercept (answer : Bool) : key_intercept_element (recorder answer) :=
  { on_key := some (fun k w => (k == 27, { w with seen := w.seen + 1 })) }

/-- A key-intercept decorator over a `recorder` whose `on_key` handles the key 27 by clearing
the content of the subject (captured by reference), and lets every other key through. -/
def sample_clearing (answer : Bool) : key_intercept_element (recorder answer) :=
  { on_key := some (fun k w =>
      if k == 27 then (true, { w with subject := { w.subject with value := 0 } })
      else (false, w)) }

/-! ### Working lemmas on `find_composite` -/

theorem first_composite_eq (e : element) :
    first_composite e = if e.is_composite_base then some e else subject_composite e := by
  cases e <;> rfl

theorem first_composite_is_composite {e c : element} (h : first_composite e = some c) :
    c.is_composite_base = true := by
  induction e with
  | plain id b =>
    cases b
    · simp [first_composite] at h
    · simp [first_composite] at h
      subst h
      rfl
  | proxy id b s ih =>
    cases b
    · simp [first_composite] at h
      exact ih h
    · simp [first_composite] at h
      subst h
      rfl

theorem unwrap_eq (p : context) (e : element) (r : composite_pair) :
    find_composite.unwrap p e r = (subject_composite e).map (fun c => (some c, some p)) := by
  induction e with
  | plain id b => rfl
  | proxy id b s ih =>
    cases s with
    | plain id2 b2 =>
      cases b2 <;>
        simp [find_composite.unwrap, find_composite.find, subject_composite, first_composite,
          element.is_composite_base]
    | proxy id2 b2 s2 =>
      cases b2
      · simp [find_composite.unwrap, find_composite.find, element.is_composite_base] at ih ⊢
        simp [subject_composite, first_composite] at ih ⊢
        exact ih
      · simp [find_composite.unwrap, find_composite.find, subject_composite, first_composite,
          element.is_composite_base]

theorem walk_step (e : Option element) (parent : Option context) (b : rect) (cv : Nat)
    (r : composite_pair) :
    find_composite.walk (.mk e parent b cv) r =
      match e.bind first_composite with
      | some c => (some c, some (.mk e parent b cv))
      | none =>
        match parent with
        | some q => find_composite.walk q r
        | none => r := by
  cases e with
  | none => cases parent <;> simp [find_composite.walk, find_composite.find]
  | some el =>
    rw [find_composite.walk]
    simp only [Option.some_bind, first_composite_eq, find_composite.find, unwrap_eq]
    cases hc : el.is_composite_base
    · cases hs : subject_composite el <;> cases parent <;> simp
    · simp

theorem chain_cons (e : Option element) (parent : Option context) (b : rect) (cv : Nat) :
    chain (.mk e parent b cv) =
      (.mk e parent b cv) :: (match parent with
                           | some q => chain q
                           | none => []) := by
  cases parent <;> simp [chain]

theorem walk_eq_find : ∀ (p : context) (r : composite_pair),
    find_composite.walk p r =
      match (chain p).find? qualifies with
      | some k => (k.element.bind first_composite, some k)
      | none => r
  | .mk e parent b cv, r => by
    rw [walk_step, chain_cons]
    cases hq : e.bind first_composite with
    | some c =>
      have hk : qualifies (.mk e parent b cv) = true := by simp [qualifies, context.element, hq]
      simp [List.find?, hk, context.element, hq]
    | none =>
      have hk : qualifies (.mk e parent b cv) = false := by simp [qualifies, context.element, hq]
      cases parent with
      | none => simp [List.find?, hk]
      | some q =>
        have ih := walk_eq_find q r
        simp [List.find?, hk, ih]

theorem find_composite_eq_find (ctx : context) :
    find_composite ctx =
      match (ancestors ctx).find? qualifies with
      | some k => (k.element.bind first_composite, some k)
      | none => (none, none) := by
  unfold find_composite ancestors
  cases ctx.parent with
  | none => simp
  | some p => simp [walk_eq_find]

theorem find?_of_first_index {α : Type} (q : α → Bool) :
    ∀ (l : List α) (n : Nat) (k : α), l[n]? = some k → q k = true →
      (∀ m, m < n → ∀ j, l[m]? = some j → q j = false) → l.find? q = some k
  | [], n, k, hk, _, _ => by simp at hk
  | a :: l, 0, k, hk, hq, _ => by
    simp at hk
    subst hk
    simp [List.find?, hq]
  | a :: l, n + 1, k, hk, hq, hlt => by
    have ha : q a = false := hlt 0 (Nat.succ_pos n) a (by simp)
    have ih := find?_of_first_index q l n k (by simpa using hk) hq
      (fun m hm j hj => hlt (m + 1) (Nat.succ_lt_succ hm) j (by simpa using hj))
    simp [List.find?, ha, ih]

theorem first_index_of_find? {α : Type} (q : α → Bool) :
    ∀ (l : List α) (k : α), l.find? q = some k →
      ∃ n : Nat, l[n]? = some k ∧ q k = true ∧ ∀ m, m < n → ∀ j, l[m]? = some j → q j = false
  | [], k, h => by simp at h
  | a :: l, k, h => by
    cases ha : q a with
    | true =>
      simp [List.find?, ha] at h
      subst h
      exact ⟨0, by simp, ha, fun m hm => absurd hm (Nat.not_lt_zero m)⟩
    | false =>
      simp [List.find?, ha] at h
      obtain ⟨n, hn, hq, hlt⟩ := first_index_of_find? q l k h
      refine ⟨n + 1, by simpa using hn, hq, ?_⟩
      intro m hm j hj
      cases m with
      | zero =>
        simp at hj
        subst hj
        exact ha
      | succ m => exact hlt m (Nat.lt_of_succ_lt_succ hm) j (by simpa using hj)

theorem chain_length_le : ∀ (p k : context), k ∈ chain p → (chain k).length ≤ (chain p).length
  | .mk e parent b cv, k, hk => by
    rw [chain_cons] at hk
    cases parent with
    | none =>
      simp at hk
      subst hk
      exact Nat.le_refl _
    | some q =>
      simp only [List.mem_cons] at hk
      rcases hk with hk | hk
      · subst hk
        exact Nat.le_refl _
      · have ih := chain_length_le q k hk
        rw [chain_cons _ (some q) _ _]
        simp only [List.length_cons]
        exact Nat.le_succ_of_le ih

theorem not_mem_ancestors_self (ctx : context) : ctx ∉ ancestors ctx := by
  intro h
  cases ctx with
  | mk e parent b =>
    cases parent with
    | none => simp [ancestors, context.parent] at h
    | some q =>
      simp only [ancestors, context.parent] at h
      have hle := chain_length_le q _ h
      rw [chain_cons _ (some q) _ _] at hle
      simp only [List.length_cons] at hle
      exact Nat.not_succ_le_self _ hle

/-! ## Properties of `find_composite` -/

/-- C1. Whenever some context on the parent chain of `ctx` has an owning element that is a
composite, or that unwraps through decorators to a composite, both pointers of
`find_composite ctx` are non-null.  In particular, on a chain
leaf -> decorator -> decorator -> composite -> root (the owning elements `d1`, `d2` of the
two contexts in between reach no composite; decorators over a non-composite leaf are the
instance), called on the leaf context, the answer is that composite with the composite's
own context. -/
theorem find_composite_finds :
    (∀ ctx : context, (∃ k ∈ ancestors ctx, qualifies k = true) →
      (find_composite ctx).1 ≠ none ∧ (find_composite ctx).2 ≠ none) ∧
    (∀ (leaf : Option element) (d1 d2 c : element) (root : context) (b0 b1 b2 b3 : rect)
        (v0 v1 v2 v3 : Nat),
      first_composite d1 = none → first_composite d2 = none → c.is_composite_base = true →
      find_composite
          (.mk leaf (some (.mk (some d1) (some (.mk (some d2)
            (some (.mk (some c) (some root) b3 v3)) b2 v2)) b1 v1)) b0 v0) =
        (some c, some (.mk (some c) (some root) b3 v3))) := by
  constructor
  · rintro ctx ⟨k, hk, hq⟩
    rw [find_composite_eq_find]
    cases hf : (ancestors ctx).find? qualifies with
    | none =>
      have := List.find?_eq_none.mp hf k hk
      simp [hq] at this
    | some j =>
      have hj : qualifies j = true := List.find?_some hf
      simp only [qualifies, Option.isSome_iff_exists] at hj
      obtain ⟨c, hc⟩ := hj
      simp [hc]
  · intro leaf d1 d2 c root b0 b1 b2 b3 v0 v1 v2 v3 h1 h2 hc
    have hcc : first_composite c = some c := by
      rw [first_composite_eq, hc]
      rfl
    simp [find_composite, context.parent, walk_step, h1, h2, hcc]

/-- Witness for C1: a non-composite leaf under two nested decorators, inside a composite
that sits in a root. -/
theorem find_composite_finds_witness :
    ((find_composite
        (.mk (some (.plain 1 false))
          (some (.mk (some (.proxy 2 false (.plain 1 false)))
            (some (.mk (some (.proxy 3 false (.proxy 2 false (.plain 1 false))))
              (some (.mk (some (.plain 4 true))
                (some (.mk (some (.plain 5 false)) none ⟨0, 0, 100, 100⟩ 0))
                ⟨0, 0, 50, 50⟩ 0))
              ⟨0, 0, 20, 20⟩ 0))
            ⟨0, 0, 20, 20⟩ 0))
          ⟨0, 0, 20, 20⟩ 0)).1 ≠ none) ∧
    find_composite
        (.mk (some (.plain 1 false))
          (some (.mk (some (.proxy 2 false (.plain 1 false)))
            (some (.mk (some (.proxy 3 false (.proxy 2 false (.plain 1 false))))
              (some (.mk (some (.plain 4 true))
                (some (.mk (some (.plain 5 false)) none ⟨0, 0, 100, 100⟩ 0))
                ⟨0, 0, 50, 50⟩ 0))
              ⟨0, 0, 20, 20⟩ 0))
            ⟨0, 0, 20, 20⟩ 0))
          ⟨0, 0, 20, 20⟩ 0) =
      (some (.plain 4 true),
        some (.mk (some (.plain 4 true))
          (some (.mk (some (.plain 5 false)) none ⟨0, 0, 100, 100⟩ 0)) ⟨0, 0, 50, 50⟩ 0)) :=
  ⟨(find_composite_finds.1 _
      ⟨.mk (some (.plain 4 true))
          (some (.mk (some (.plain 5 false)) none ⟨0, 0, 100, 100⟩ 0)) ⟨0, 0, 50, 50⟩ 0,
        by simp [ancestors, context.parent, chain], rfl⟩).1,
    find_composite_finds.2 _ _ _ _ _ _ _ _ _ _ _ _ _ rfl rfl rfl⟩

/-- C2. Whenever `find_composite ctx` returns a non-null pair `(c, k)`, the context `k` is
the nearest composite ancestor context: it lies on the parent chain of `ctx` (at some
position `n`), no context before it on that chain has an owning element that is a composite
or unwraps to one, and `c` is the first composite met when testing the owning element of
`k` and then its successive decorator subjects in order (so `c` is a composite). -/
theorem find_composite_nearest (ctx : context) (c : element) (k : context)
    (h : find_composite ctx = (some c, some k)) :
    ∃ n : Nat, (ancestors ctx)[n]? = some k ∧
      (∀ m, m < n → ∀ j, (ancestors ctx)[m]? = some j → qualifies j = false) ∧
      k.element.bind first_composite = some c ∧ c.is_composite_base = true := by
  rw [find_composite_eq_find] at h
  cases hf : (ancestors ctx).find? qualifies with
  | none => simp [hf] at h
  | some j =>
    simp only [hf, Prod.mk.injEq, Option.some.injEq] at h
    obtain ⟨hc, hjk⟩ := h
    subst hjk
    obtain ⟨n, hn, _, hlt⟩ := first_index_of_find? qualifies _ _ hf
    refine ⟨n, hn, hlt, hc, ?_⟩
    cases he : j.element with
    | none => simp [he] at hc
    | some el =>
      rw [he] at hc
      exact first_composite_is_composite hc

/-- Witness for C2: in the sample traversal the answer for the leaf context is the inner
composite (element 5) with the outer decorator's context, second on the parent chain. -/
theorem find_composite_nearest_witness :
    find_composite sample_leaf = (some (.plain 5 true), some sample_outer) ∧
    ∃ n : Nat, (ancestors sample_leaf)[n]? = some sample_outer ∧
      (∀ m, m < n → ∀ j, (ancestors sample_leaf)[m]? = some j → qualifies j = false) ∧
      sample_outer.element.bind first_composite = some (.plain 5 true) ∧
      (element.plain 5 true).is_composite_base = true :=
  ⟨rfl, find_composite_nearest sample_leaf (.plain 5 true) sample_outer rfl⟩

/-- C3. When the nearest qualifying context `k` on the parent chain of `ctx` (position `n`,
nothing before it qualifies) is owned by a decorator that is not itself a composite and
whose chain of nested subjects reaches the composite `c`, then `find_composite ctx` is
`(c, k)`: the composite is the unwrapped subject (it is a composite, hence not the
decorator that owns `k`), and the context is `k` itself and no other context. -/
theorem find_composite_outer_context (ctx : context) (n : Nat) (k : context) (id : Nat)
    (s c : element) (hk : (ancestors ctx)[n]? = some k)
    (hnear : ∀ m, m < n → ∀ j, (ancestors ctx)[m]? = some j → qualifies j = false)
    (hel : k.element = some (.proxy id false s)) (hs : first_composite s = some c) :
    find_composite ctx = (some c, some k) ∧
      c.is_composite_base = true ∧ some c ≠ k.element ∧
      ∀ k2 : context, (find_composite ctx).2 = some k2 → k2 = k := by
  have hb : k.element.bind first_composite = some c := by
    simp [hel, first_composite, hs]
  have hq : qualifies k = true := by simp [qualifies, hb]
  have hf := find?_of_first_index qualifies _ n k hk hq hnear
  have hres : find_composite ctx = (some c, some k) := by
    rw [find_composite_eq_find, hf]
    simp [hb]
  have hc := first_composite_is_composite hs
  refine ⟨hres, hc, ?_, ?_⟩
  · intro he
    rw [hel] at he
    simp only [Option.some.injEq] at he
    subst he
    simp [element.is_composite_base] at hc
  · intro k2 h2
    rw [hres] at h2
    simp only [Option.some.injEq] at h2
    exact h2.symm

/-- Witness for C3: in the sample traversal the nearest qualifying context above the leaf
context is the outer decorator's (position 1); the composite returned is element 5, two
decorators down, and the context returned is the decorator's. -/
theorem find_composite_outer_context_witness :
    find_composite sample_leaf = (some (.plain 5 true), some sample_outer) ∧
      (element.plain 5 true).is_composite_base = true ∧
      some (element.plain 5 true) ≠ sample_outer.element ∧
      ∀ k2 : context, (find_composite sample_leaf).2 = some k2 → k2 = sample_outer :=
  find_composite_outer_context sample_leaf 1 sample_outer 3
    (.proxy 4 false (.plain 5 true)) (.plain 5 true) rfl
    (by
      intro m hm j hj
      have hm0 : m = 0 := Nat.lt_one_iff.mp hm
      subst hm0
      simp [ancestors, sample_leaf, context.parent, sample_child, chain] at hj
      subst hj
      rfl)
    rfl rfl

/-- C4. When no context on the parent chain of `ctx` has an owning element that is a
composite or unwraps through decorators to a composite (in particular when `ctx` has no
parent, the chain being empty), `find_composite ctx` is the null pair. -/
theorem find_composite_null (ctx : context)
    (h : ∀ k ∈ ancestors ctx, qualifies k = false) :
    find_composite ctx = (none, none) := by
  rw [find_composite_eq_find]
  have hf : (ancestors ctx).find? qualifies = none := by
    rw [List.find?_eq_none]
    intro k hk
    simp [h k hk]
  rw [hf]

/-- Witness for C4: a chain of three ancestors (a decorator over a leaf, a plain element, a
root without owning element), none of which reaches a composite. -/
theorem find_composite_null_witness : find_composite sample_bare = (none, none) :=
  find_composite_null sample_bare (by
    intro k hk
    simp [ancestors, sample_bare, context.parent, chain] at hk
    rcases hk with hk | hk | hk <;> subst hk <;> rfl)

/-- C8. The context handed to `find_composite` is never inspected, only its parent is:
two contexts with the same parent get the same answer whatever their owning elements,
bounds and canvases are.  In particular a context without parent gets the null pair, also when its
owning element is a composite, and the context returned is never the argument itself. -/
theorem find_composite_skips_argument :
    (∀ (e1 e2 : Option element) (p : Option context) (b1 b2 : rect) (v1 v2 : Nat),
      find_composite (.mk e1 p b1 v1) = find_composite (.mk e2 p b2 v2)) ∧
    (∀ (e : Option element) (b : rect) (v : Nat),
      find_composite (.mk e none b v) = (none, none)) ∧
    (∀ (id : Nat) (b : rect) (v : Nat),
      find_composite (.mk (some (.plain id true)) none b v) = (none, none)) ∧
    (∀ ctx : context, (find_composite ctx).2 ≠ some ctx) := by
  refine ⟨fun _ _ _ _ _ _ _ => rfl, fun _ _ _ => rfl, fun _ _ _ => rfl, ?_⟩
  intro ctx h
  rw [find_composite_eq_find] at h
  cases hf : (ancestors ctx).find? qualifies with
  | none => simp [hf] at h
  | some j =>
    simp only [hf, Option.some.injEq] at h
    subst h
    exact not_mem_ancestors_self j (List.mem_of_find?_eq_some hf)

/-! ## Properties of `range_composite` -/

theorem size_t_add_eq (w a b : Nat) (h : a + b < 2 ^ w) : size_t_add w a b = a + b :=
  Nat.mod_eq_of_lt h

theorem size_t_sub_of_le (w a b : Nat) (ha : a < 2 ^ w) (hba : b ≤ a) :
    size_t_sub w a b = a - b := by
  have hb : b < 2 ^ w := Nat.lt_of_le_of_lt hba ha
  unfold size_t_sub
  rw [Nat.mod_eq_of_lt hb]
  have h1 : a + (2 ^ w - b) = (a - b) + 2 ^ w := by omega
  rw [h1, Nat.add_mod_right]
  exact Nat.mod_eq_of_lt (by omega)

theorem size_t_sub_of_lt (w a b : Nat) (hb : b < 2 ^ w) (hab : a < b) :
    size_t_sub w a b = 2 ^ w - (b - a) := by
  unfold size_t_sub
  rw [Nat.mod_eq_of_lt hb]
  have h1 : a + (2 ^ w - b) = 2 ^ w - (b - a) := by omega
  rw [h1]
  exact Nat.mod_eq_of_lt (by omega)

/-- C5. A `range_composite` built over a container with bounds `[first, last)`
(`first <= last`, both `std::size_t`) exposes exactly that slice: it refers to the very
container it was given, `size()` is `last - first`, and `at(ix)` is whatever
`container.at(first + ix)` returns, for every index `ix` (the sum being the `std::size_t`
sum, which is the plain sum `first + ix` whenever that fits, as it does for `ix < size()`). -/
theorem range_composite_slice {E : Type} (w : Nat) (c : container E) (first last : Nat)
    (hl : last < 2 ^ w) (hfl : first ≤ last) :
    (range_composite.ctor c first last)._container = c ∧
    (range_composite.ctor c first last).size w = last - first ∧
    (∀ ix, (range_composite.ctor c first last).at_ w ix = c.at_ (size_t_add w first ix)) ∧
    (∀ ix, first + ix < 2 ^ w →
      (range_composite.ctor c first last).at_ w ix = c.at_ (first + ix)) ∧
    (∀ ix, ix < (range_composite.ctor c first last).size w →
      (range_composite.ctor c first last).at_ w ix = c.at_ (first + ix)) := by
  have hsize : (range_composite.ctor c first last).size w = last - first :=
    size_t_sub_of_le w last first hl hfl
  refine ⟨rfl, hsize, fun _ => rfl, ?_, ?_⟩
  · intro ix h
    show c.at_ (size_t_add w first ix) = c.at_ (first + ix)
    rw [size_t_add_eq w first ix h]
  · intro ix h
    rw [hsize] at h
    show c.at_ (size_t_add w first ix) = c.at_ (first + ix)
    rw [size_t_add_eq w first ix (by omega)]

/-- Witness for C5: the slice `[1, 4)` of a five-element vector, with 64-bit `std::size_t`. -/
theorem range_composite_slice_witness :
    (range_composite.ctor (vector_composite [10, 20, 30, 40, 50]) 1 4).size 64 = 3 ∧
    (range_composite.ctor (vector_composite [10, 20, 30, 40, 50]) 1 4).at_ 64 0 = some 20 ∧
    (range_composite.ctor (vector_composite [10, 20, 30, 40, 50]) 1 4).at_ 64 2 = some 40 :=
  have h := range_composite_slice 64 (vector_composite [10, 20, 30, 40, 50]) 1 4
    (by norm_num) (by norm_num)
  ⟨h.2.1, (h.2.2.2.1 0 (by norm_num)).trans rfl, (h.2.2.2.1 2 (by norm_num)).trans rfl⟩

/-- C9. Index safety of the sub-range view: when `first <= last <= container.size()`, every
index `ix < size()` of the view has `first + ix` below `2 ^ w` (the `std::size_t` sum does
not wrap) and below `container.size()`, so `at(ix)` calls `container.at` inside its
precondition, at `first + ix`; and distinct indices of the view go to distinct indices of
the container. -/
theorem range_composite_index_safe {E : Type} (w : Nat) (c : container E)
    (first last : Nat) (hfl : first ≤ last) (hlc : last ≤ c.size) (hc : c.size < 2 ^ w)
    (ix : Nat) (hix : ix < (range_composite.ctor c first last).size w) :
    first + ix < 2 ^ w ∧
    size_t_add w first ix = first + ix ∧
    size_t_add w first ix < c.size ∧
    (range_composite.ctor c first last).at_ w ix = c.at_ (first + ix) ∧
    (∀ jx, jx < (range_composite.ctor c first last).size w → ix ≠ jx →
      size_t_add w first ix ≠ size_t_add w first jx) := by
  have hl : last < 2 ^ w := Nat.lt_of_le_of_lt hlc hc
  have hsize : (range_composite.ctor c first last).size w = last - first :=
    size_t_sub_of_le w last first hl hfl
  rw [hsize] at hix
  have hlt : first + ix < 2 ^ w := by omega
  have hadd := size_t_add_eq w first ix hlt
  refine ⟨hlt, hadd, by omega, ?_, ?_⟩
  · show c.at_ (size_t_add w first ix) = c.at_ (first + ix)
    rw [hadd]
  · intro jx hjx hne
    rw [hsize] at hjx
    rw [hadd, size_t_add_eq w first jx (by omega)]
    omega

/-- Witness for C9: index 2 of the slice `[1, 4)` of a five-element vector. -/
theorem range_composite_index_safe_witness :
    size_t_add 64 1 2 < (vector_composite [10, 20, 30, 40, 50]).size ∧
    (range_composite.ctor (vector_composite [10, 20, 30, 40, 50]) 1 4).at_ 64 2 =
      (vector_composite [10, 20, 30, 40, 50]).at_ (1 + 2) :=
  have h := range_composite_index_safe 64 (vector_composite [10, 20, 30, 40, 50]) 1 4
    (by norm_num) (by simp [vector_composite]) (by simp [vector_composite]) 2
    (by simp [range_composite.size, range_composite.ctor, size_t_sub])
  ⟨h.2.2.1, h.2.2.2.1⟩

/-- C10. The constructor of `range_composite` does not validate its bounds: for
`first > last` the view is built all the same, with the members as given; `size()` is then
the wrapped difference `2 ^ w - (first - last)`, which is not zero, so `empty()` is `false`,
although no index lies in `[first, last)`. -/
theorem range_composite_reversed_bounds {E : Type} (w : Nat) (c : container E)
    (first last : Nat) (hf : first < 2 ^ w) (hlf : last < first) :
    (range_composite.ctor c first last)._first = first ∧
    (range_composite.ctor c first last)._last = last ∧
    (range_composite.ctor c first last).size w = 2 ^ w - (first - last) ∧
    (range_composite.ctor c first last).size w ≠ 0 ∧
    (range_composite.ctor c first last).empty w = false ∧
    (∀ i : Nat, ¬ (first ≤ i ∧ i < last)) := by
  have hsize : (range_composite.ctor c first last).size w = 2 ^ w - (first - last) :=
    size_t_sub_of_lt w last first hf hlf
  have hne : (range_composite.ctor c first last).size w ≠ 0 := by
    rw [hsize]
    omega
  refine ⟨rfl, rfl, hsize, hne, ?_, ?_⟩
  · simp only [range_composite.empty, container.empty, range_composite.to_container]
    simpa using hne
  · intro i hi
    omega

/-- Witness for C10: bounds `first = 4`, `last = 1` over a five-element vector, with 64-bit
`std::size_t`: the size is `2 ^ 64 - 3`. -/
theorem range_composite_reversed_bounds_witness :
    (range_composite.ctor (vector_composite [10, 20, 30, 40, 50]) 4 1).size 64 =
      18446744073709551613 ∧
    (range_composite.ctor (vector_composite [10, 20, 30, 40, 50]) 4 1).empty 64 = false :=
  have h := range_composite_reversed_bounds 64 (vector_composite [10, 20, 30, 40, 50]) 4 1
    (by norm_num) (by norm_num)
  ⟨h.2.2.1, h.2.2.2.2.1⟩

/-! ## Properties of `key_intercept_element` -/

theorem key_intercept_element_key_empty {Key W : Type} (S : subject_type Key W)
    (self : key_intercept_element S) (h : self.on_key = none) (ctx : context) (k : Key)
    (w : W) : self.key ctx k w = .error .bad_function_call := by
  simp [key_intercept_element.key, h]

/-- C6 (amended statement).  For every key-intercept decorator whose `on_key` holds a closure `f`,
every context `ctx`, key `k` and state `w`: when `f k` reports handled, `key ctx k` returns
`true` and the state after the call is the state `f k` left, the subject's `key` not being
run; hence whatever `f k` leaves alone, the subject in particular, is left alone by
`key ctx k`.  Otherwise `key ctx k` is one run of the subject's `key` on the same `ctx` and
`k`, in the state `f k` left: it returns that result and leaves that state. -/
theorem key_intercept_element_key {Key W : Type} (S : subject_type Key W)
    (self : key_intercept_element S) (f : Key → W → Bool × W) (hf : self.on_key = some f)
    (ctx : context) (k : Key) (w : W) :
    ((f k w).1 = true → self.key ctx k w = .ok (true, (f k w).2)) ∧
    ((f k w).1 = false → self.key ctx k w = .ok (S.key ctx k (f k w).2)) ∧
    (∀ (α : Type) (part : W → α), (f k w).1 = true → part (f k w).2 = part w →
      ∃ w1, self.key ctx k w = .ok (true, w1) ∧ part w1 = part w) := by
  have hkey : self.key ctx k w =
      (match f k w with
       | (true, w1) => .ok (true, w1)
       | (false, w1) => .ok (S.key ctx k w1)) := by
    simp [key_intercept_element.key, hf]
  rw [hkey]
  rcases f k w with ⟨handled, w1⟩
  cases handled
  · simp
  · refine ⟨fun _ => rfl, fun h => by simp at h, fun α part _ hp => ⟨w1, rfl, hp⟩⟩

/-- Witness for C6, on a subject that records the calls of its `key` and a closure that
leaves the subject alone: with the key 27 (handled) the decorator answers `true`, although
the subject would have answered `false`, and the subject is as before, no call recorded;
with the key 65 (not handled) the subject's answer comes back and the record holds that one
call, with the same context and key. -/
theorem key_intercept_element_key_witness :
    (sample_intercept false).key sample_leaf 27 sample_start =
      .ok (true, { subject := { value := 5, calls := [] }, seen := 1 }) ∧
    (∃ w1, (sample_intercept false).key sample_leaf 27 sample_start = .ok (true, w1) ∧
      w1.subject = sample_start.subject) ∧
    (sample_intercept true).key sample_leaf 65 sample_start =
      .ok (true, { subject := { value := 5, calls := [(sample_leaf, 65)] }, seen := 1 }) ∧
    (sample_intercept false).key sample_leaf 65 sample_start =
      .ok (false, { subject := { value := 5, calls := [(sample_leaf, 65)] }, seen := 1 }) :=
  ⟨(key_intercept_element_key (recorder false) (sample_intercept false) _ rfl
      sample_leaf 27 sample_start).1 rfl,
    (key_intercept_element_key (recorder false) (sample_intercept false) _ rfl
      sample_leaf 27 sample_start).2.2 sample_subject (fun w => w.subject) rfl rfl,
    (key_intercept_element_key (recorder true) (sample_intercept true) _ rfl
      sample_leaf 65 sample_start).2.1 rfl,
    (key_intercept_element_key (recorder false) (sample_intercept false) _ rfl
      sample_leaf 65 sample_start).2.1 rfl⟩

/-- Counterexample to C6 as stated ("the subject is left unchanged" whenever `on_key`
reports handled): the closure of `sample_clearing` handles the key 27 by clearing the
content of the subject.  From the starting state (content 5, no call received) the call
`key ctx 27` returns `true` and the subject's `key` is not run (no call is recorded), yet
the subject is not as it was: its content is 0. -/
theorem key_intercept_element_key_subject_changed :
    (sample_clearing false).key sample_leaf 27 sample_start =
      .ok (true, { subject := { value := 0, calls := [] }, seen := 0 }) ∧
    sample_start.subject.value = 5 ∧ sample_start.subject.calls = [] ∧
    ({ value := 0, calls := [] } : sample_subject) ≠ sample_start.subject :=
  ⟨rfl, rfl, rfl, fun h => absurd (congrArg sample_subject.value h) (by decide)⟩

/-- C7. For every key-intercept decorator, whatever its subject answers to `is_control()`
and `wants_focus()` and whatever `on_key` is, the decorator's `is_control()` is `true` and
its `wants_focus()` is `true`. -/
theorem key_intercept_element_control_focus {Key W : Type} (S : subject_type Key W)
    (self : key_intercept_element S) :
    self.is_control = true ∧ self.wants_focus = true :=
  ⟨rfl, rfl⟩

/-- Witness for C7: over a subject that answers `false` to both queries, the decorator
answers `true` to both. -/
theorem key_intercept_element_control_focus_witness :
    (recorder false).is_control sample_start = false ∧
    (recorder false).wants_focus sample_start = false ∧
    (sample_intercept false).is_control = true ∧
    (sample_intercept false).wants_focus = true :=
  ⟨rfl, rfl, key_intercept_element_control_focus (recorder false) (sample_intercept false)⟩

end elements
